import Mathlib

/-!
Shallow embedding of the `parse_products` repository (src/parse.py and
src/script.py) and proofs about it.

The HTML markup consumed by the parser is modelled structurally: each xpath
query of the source corresponds to a field of a page structure holding
exactly the nodes that query can return.  Network fetching is modelled by a
`Catalog` value mapping page numbers and detail URLs to the markup the
corresponding HTTP request would return.  Python exceptions are modelled by
`Except`; the IndexError raised when a required xpath query returns no node
is represented by `HarvestErr.extractionError`, following the error
taxonomy of the design document.
-/

namespace ParseProducts

/-- Failures of the pipeline. `planningError` models the IndexError raised
in `get_last_page` when the page-navigation widget is missing,
`extractionError` the IndexError raised in `extract_product_data` when a
required table is missing, `attributeError` the AttributeError raised in
`get_list_page_product_links` when a product row lacks its link anchor, and
`poolError` the (unreachable) case of a worker pool losing a result. -/
inductive HarvestErr where
  | planningError
  | extractionError
  | attributeError
  | poolError
  deriving Repr, DecidableEq

/-! ### Molecular formula conversion (src/parse.py lines 31-43)

`MOLECULAR_FORMULA_RE = re.compile("([a-zA-Z]+)([0-9]*)")` and
`re.findall` scan the input left to right for non-overlapping matches,
each match being a maximal run of ASCII letters followed by a (possibly
empty) maximal run of ASCII digits; characters belonging to no match are
skipped.  The scan is embedded as a three-state scanner over the character
list. -/

mutual

/-- Scanner state outside any match: characters are skipped until a letter
starts a new match. -/
def scanSkip : List Char → List (List Char × List Char)
  | [] => []
  | c :: rest => if c.isAlpha then scanLetters [c] rest else scanSkip rest

/-- Scanner state inside the letter group `([a-zA-Z]+)` of a match. -/
def scanLetters (acc : List Char) : List Char → List (List Char × List Char)
  | [] => [(acc, [])]
  | c :: rest =>
    if c.isAlpha then scanLetters (acc ++ [c]) rest
    else if c.isDigit then scanDigits acc [c] rest
    else (acc, []) :: scanSkip rest

/-- Scanner state inside the digit group `([0-9]*)` of a match. -/
def scanDigits (lacc dacc : List Char) : List Char → List (List Char × List Char)
  | [] => [(lacc, dacc)]
  | c :: rest =>
    if c.isDigit then scanDigits lacc (dacc ++ [c]) rest
    else if c.isAlpha then (lacc, dacc) :: scanLetters [c] rest
    else (lacc, dacc) :: scanSkip rest

end

/-- The list of `(letters, digits)` matches of `MOLECULAR_FORMULA_RE` in a
string, as produced by `re.findall` (src/parse.py line 31). -/
def findallFormula (s : String) : List (String × String) :=
  (scanSkip s.data).map (fun t => (String.mk t.1, String.mk t.2))

/-- Output for one `(letters, digits)` match: `"%s<sub>%s</sub>" % item` if
the digit group is non-empty (`len(item[1])`), else just the letters. -/
def emitToken (t : List Char × List Char) : List Char :=
  if t.2.length != 0 then
    t.1 ++ "<sub>".data ++ t.2 ++ "</sub>".data
  else
    t.1

/-- `convert_formula` (src/parse.py lines 34-43): join of the per-match
outputs over all matches, with no separator. -/
def convert_formula (s : String) : String :=
  String.mk (((scanSkip s.data).map emitToken).flatten)

/-! ### Product records (src/parse.py lines 46-124)

`extract_product_data` builds a Python dict.  The dict is embedded as a
structure whose fields record, for each possible key, whether the key is
present and with which value.  The keys `pid` and `name` are initialised to
`None` before extraction (line 53), so for them key presence (outer
`Option`) and a possibly null value (inner `Option`) are distinguished.
All other optional keys are only ever inserted with non-null values, so one
`Option` layer suffices.  Prices are parsed with `float()` in the source;
they are modelled as rationals, which the markup model already carries in
parsed form. -/

/-- The nested dict stored under the `properties` key (lines 77-80 and
115-122): keys `weight`, `purity`, `melting_point`, each present only once
assigned. -/
structure PropertyBag where
  weight : Option String
  purity : Option String
  melting_point : Option String
  deriving Repr, DecidableEq

/-- The product dict returned by `extract_product_data`. -/
structure Product where
  pid : Option (Option String)
  name : Option (Option String)
  url : String
  CAS : Option String
  structure_ : Option String
  properties : Option PropertyBag
  packaging : List (String × Rat)
  synonyms : Option (List String)
  pdf_msds : Option String
  img : Option String
  deriving Repr, DecidableEq

/-- The dict as initialised on line 53-58: `pid` and `name` present with
value `None`, `url` set, `packaging` an empty dict, every other key
absent. -/
def initial_product (url : String) : Product where
  pid := some none
  name := some none
  url := url
  CAS := none
  structure_ := none
  properties := none
  packaging := []
  synonyms := none
  pdf_msds := none
  img := none

/-- Markup model of one product detail page.  Each field holds the nodes
one of the xpath queries of `extract_product_data` can return:
`ptables` the tables of class `ptable` (each one reduced to its rows having
a `ptdataleft` cell, as `(label, value)` text pairs), `pricetables` the
tables of class `pricetable` (each reduced to its rows with
`itemprop="offers"`, as `(size label, parsed price)` pairs), and the three
optional nodes for synonyms, the MSDS anchor and the image. -/
structure DetailPage where
  ptables : List (List (String × String))
  pricetables : List (List (String × Rat))
  synonymsNode : Option String
  msdsHref : Option String
  imgSrc : Option String
  deriving Repr, DecidableEq

/-- Body of the `Product Detail` table loop (lines 65-80): the if/elif
chain dispatching on the row label. -/
def step1 (p : Product) (row : String × String) : Product :=
  if row.1 = "Glentham Code" then { p with pid := some (some row.2) }
  else if row.1 = "Product Name" then { p with name := some (some row.2) }
  else if row.1 = "CAS" then { p with CAS := some row.2 }
  else if row.1 = "Molecular Formula" ∧ row.2 ≠ "-" then
    { p with structure_ := some (convert_formula row.2) }
  else if row.1 = "Molecular Weight" ∧ row.2 ≠ "-" then
    { p with properties := some (match p.properties with
        | none => { weight := some row.2, purity := none, melting_point := none }
        | some b => { b with weight := some row.2 }) }
  else p

/-- Body of the `Product Specification` table loop (lines 111-122). -/
def step2 (p : Product) (row : String × String) : Product :=
  if row.1 = "Purity" then
    { p with properties := some (match p.properties with
        | none => { weight := none, purity := some row.2, melting_point := none }
        | some b => { b with purity := some row.2 }) }
  else if row.1 = "Melting Point" then
    { p with properties := some (match p.properties with
        | none => { weight := none, purity := none, melting_point := some row.2 }
        | some b => { b with melting_point := some row.2 }) }
  else p

/-- Assignment `d[k] = v` on a Python dict modelled as an association list
in insertion order: an existing key is overwritten in place, a new key is
appended. -/
def assocSet (l : List (String × Rat)) (k : String) (v : Rat) : List (String × Rat) :=
  match l with
  | [] => [(k, v)]
  | (k0, v0) :: rest =>
    if k0 = k then (k, v) :: rest else (k0, v0) :: assocSet rest k v

/-- Body of the pricing loop (lines 84-88): `product["packaging"][size] = price`. -/
def stepPack (p : Product) (row : String × Rat) : Product :=
  { p with packaging := assocSet p.packaging row.1 row.2 }

/-- Lines 90-92: if no packaging option was found, insert the sentinel
entry `ne` with price `0.0`. -/
def default_packaging (p : Product) : Product :=
  if p.packaging.isEmpty then { p with packaging := [("ne", 0)] } else p

/-- Lines 94-97: split the text of the synonyms node on the literal
separator, when the node exists. -/
def apply_synonyms (p : Product) (page : DetailPage) : Product :=
  match page.synonymsNode with
  | some t => { p with synonyms := some (t.splitOn "; ") }
  | none => p

/-- Lines 99-102: copy the href of the MSDS anchor, when it exists. -/
def apply_msds (p : Product) (page : DetailPage) : Product :=
  match page.msdsHref with
  | some h => { p with pdf_msds := some h }
  | none => p

/-- Lines 104-107: copy the src of the product image, when it exists. -/
def apply_img (p : Product) (page : DetailPage) : Product :=
  match page.imgSrc with
  | some s => { p with img := some s }
  | none => p

/-- `extract_product_data` (src/parse.py lines 46-124).  The three indexed
xpath lookups (first `ptable`, first `pricetable`, second `ptable`) raise
when the node list is too short; every other step is total. -/
def extract_product_data (url : String) (page : DetailPage) : Except HarvestErr Product :=
  match page.ptables[0]? with
  | none => Except.error HarvestErr.extractionError
  | some table1 =>
    let p := table1.foldl step1 (initial_product url)
    match page.pricetables[0]? with
    | none => Except.error HarvestErr.extractionError
    | some prices_rows =>
      let p := default_packaging (prices_rows.foldl stepPack p)
      let p := apply_img (apply_msds (apply_synonyms p page) page) page
      match page.ptables[1]? with
      | none => Except.error HarvestErr.extractionError
      | some table2 => Except.ok (table2.foldl step2 p)

/-! ### Listing pages and pagination (src/parse.py lines 127-162) -/

/-- One `tr` of the product table: whether the row has a cell of class
`borderbtmfine` (the row filter of the xpath on line 159), and the link
anchor selected by the xpath on line 160, when present. -/
structure LRow where
  hasBorderTd : Bool
  href : Option String
  deriving Repr, DecidableEq

/-- Markup model of one product list page: the first table of class
`prodtable` with its rows, when such a table exists, and the
`pagenavbox` widget already reduced to the page count it displays
(the `M` of the literal `N of M` text parsed on line 139), when the widget
exists. -/
structure ListPage where
  prodtable : Option (List LRow)
  pagenav : Option Nat
  deriving Repr, DecidableEq

/-- Substring containment on character lists, the `in` operator of
`"100" in url` (src/parse.py line 147). -/
def containsSub : List Char → List Char → Bool
  | [], sub => sub.isEmpty
  | c :: t, sub => sub.isPrefixOf (c :: t) || containsSub t sub

/-- Modelled boundary function for `six.moves.urllib.parse.urljoin`
(src/parse.py line 161): the claims use it only pointwise, so resolution is
reduced to returning absolute references unchanged and concatenating
relative ones onto the base. -/
def urljoin (base rel : String) : String :=
  if containsSub rel.data "://".data then rel else base ++ rel

/-- The whole site as seen over HTTP: the markup the catalog returns for
the root URL, for each numbered list page `url?page=n`, and for each
product detail URL. -/
structure Catalog where
  root : ListPage
  pages : Nat → ListPage
  details : String → DetailPage

/-- `products_per_page` (src/parse.py line 147): 100 when the URL carries
the `100` marker, 50 otherwise. -/
def products_per_page (url : String) : Nat :=
  if containsSub url.data "100".data then 100 else 50

/-- `get_last_page` (src/parse.py lines 127-148).  The navigation widget of
the root page gives the last available page; without a count it is returned
as is, with a count the result is
`min(int(math.ceil(count / products_per_page)), last_page)`, the ceiling
division written in natural-number arithmetic. -/
def get_last_page (cat : Catalog) (url : String) (count : Option Nat) : Except HarvestErr Nat :=
  match cat.root.pagenav with
  | none => Except.error HarvestErr.planningError
  | some last_page =>
    match count with
    | none => Except.ok last_page
    | some c =>
      let ppp := products_per_page url
      Except.ok (min ((c + ppp - 1) / ppp) last_page)

/-- Row selection of `get_list_page_product_links` (src/parse.py line
159): the xpath selects the rows of the first `prodtable` having a
`borderbtmfine` cell, yielding no node at all when the table is
missing. -/
def listing_rows (page : ListPage) : List LRow :=
  (match page.prodtable with
    | none => ([] : List LRow)
    | some rs => rs).filter (fun r => r.hasBorderTd)

/-- `get_list_page_product_links` (src/parse.py lines 151-162): each
selected row must carry the link anchor (an AttributeError is raised
otherwise), whose href is resolved against the page URL. -/
def get_list_page_product_links (url : String) (page : ListPage) :
    Except HarvestErr (List String) :=
  (listing_rows page).mapM (fun r =>
    match r.href with
    | none => Except.error HarvestErr.attributeError
    | some h => Except.ok (urljoin url h))

/-- The URL of a numbered list page, `"%s?page=%d" % (url, number)`
(src/parse.py line 175). -/
def page_url (url : String) (number : Nat) : String :=
  url ++ "?page=" ++ toString number

/-- Python list slicing `lst[:count]` with an optional bound
(src/parse.py line 181): the whole list when `count` is `None`. -/
def truncate (count : Option Nat) (l : List α) : List α :=
  match count with
  | none => l
  | some c => l.take c

/-- `get_all_product_links` (src/parse.py lines 165-181): plan the pages,
map the listing extractor over pages `1..last`, flatten the per-page link
lists in page order and truncate to `count`.  `pool.map` preserves input
order, so it is embedded as an ordered map; the worker pool with its
out-of-order completions is modelled separately below and proved
equivalent. -/
def get_all_product_links (cat : Catalog) (url : String) (count : Option Nat) :
    Except HarvestErr (List String) := do
  let last ← get_last_page cat url count
  let results ← (List.range' 1 last).mapM
    (fun number => get_list_page_product_links (page_url url number) (cat.pages number))
  return truncate count results.flatten

/-- `get_product_data` (src/parse.py lines 184-198): map the detail
extractor over the discovered links, in order. -/
def get_product_data (cat : Catalog) (url : String) (count : Option Nat) :
    Except HarvestErr (List Product) := do
  let links ← get_all_product_links cat url count
  links.mapM (fun u => extract_product_data u (cat.details u))

/-! ### The worker pool (src/parse.py lines 175-181 and 194-198)

`multiprocessing.Pool.map` hands the inputs to workers that finish in an
arbitrary order; the pool collects each result tagged by its input index
and rebuilds the output in input order.  The completion order is an
explicit parameter here: `poolRun` produces the tagged results in
completion order, `reassemble` rebuilds the output by input index. -/

/-- Tagged results of the workers, listed in completion order. -/
def poolRun (f : α → β) (xs : List α) (order : List Nat) : List (Nat × β) :=
  order.filterMap (fun i => (xs[i]?).map (fun a => (i, f a)))

/-- Left-to-right sequencing of optional values. -/
def sequenceO : List (Option β) → Option (List β)
  | [] => some []
  | none :: _ => none
  | some b :: os =>
    match sequenceO os with
    | none => none
    | some bs => some (b :: bs)

/-- Rebuild the pool output in input order from the tagged results;
`none` when some input index lacks a result. -/
def reassemble (n : Nat) (pairs : List (Nat × β)) : Option (List β) :=
  sequenceO ((List.range n).map (fun i => List.lookup i pairs))

/-- `pool.map f xs` under an explicit completion order. -/
def poolMap (f : α → β) (xs : List α) (order : List Nat) : Option (List β) :=
  reassemble xs.length (poolRun f xs order)

/-- Left-to-right sequencing of fallible results: the pool re-raises the
first failure in input order. -/
def sequenceE : List (Except ε β) → Except ε (List β)
  | [] => Except.ok []
  | e :: es => do
    let b ← e
    let bs ← sequenceE es
    return b :: bs

/-- `get_all_product_links` with the listing-page fan-out run on the worker
pool under completion order `order`. -/
def get_all_product_links_pooled (cat : Catalog) (url : String) (count : Option Nat)
    (order : List Nat) : Except HarvestErr (List String) := do
  let last ← get_last_page cat url count
  match poolMap
      (fun number => get_list_page_product_links (page_url url number) (cat.pages number))
      (List.range' 1 last) order with
  | none => Except.error HarvestErr.poolError
  | some results => do
    let results ← sequenceE results
    return truncate count results.flatten

/-- `get_product_data` with both fan-out phases run on the worker pool
under completion orders `order1` and `order2`. -/
def get_product_data_pooled (cat : Catalog) (url : String) (count : Option Nat)
    (order1 order2 : List Nat) : Except HarvestErr (List Product) := do
  let links ← get_all_product_links_pooled cat url count order1
  match poolMap (fun u => extract_product_data u (cat.details u)) links order2 with
  | none => Except.error HarvestErr.poolError
  | some results => sequenceE results

/-! ### Derived observations of a harvest -/

/-- The page count the planner would visit; zero when planning fails. -/
def planned_pages (cat : Catalog) (url : String) (count : Option Nat) : Nat :=
  match get_last_page cat url count with
  | Except.ok last => last
  | Except.error _ => 0

/-- The links a harvest visits; empty when link discovery fails. -/
def discovered_links (cat : Catalog) (url : String) (count : Option Nat) : List String :=
  match get_all_product_links cat url count with
  | Except.ok ls => ls
  | Except.error _ => []

/-- The links of one numbered list page; empty when its extraction fails. -/
def linksOn (cat : Catalog) (url : String) (n : Nat) : List String :=
  match get_list_page_product_links (page_url url n) (cat.pages n) with
  | Except.ok ls => ls
  | Except.error _ => []

/-- The number of detail links discovered across all listing pages (the
uncapped harvest). -/
def total_catalog_size (cat : Catalog) (url : String) : Nat :=
  (discovered_links cat url none).length

/-- Whether the full harvest succeeds. -/
def harvestOk (cat : Catalog) (url : String) (count : Option Nat) : Bool :=
  match get_product_data cat url count with
  | Except.ok _ => true
  | Except.error _ => false

/-- The number of records the full harvest returns; zero when it fails. -/
def harvestCount (cat : Catalog) (url : String) (count : Option Nat) : Nat :=
  match get_product_data cat url count with
  | Except.ok l => l.length
  | Except.error _ => 0

/-! ### The invocation script (src/script.py) -/

/-- The names bound at module level by src/parse.py. -/
def parse_module_names : List String :=
  ["MOLECULAR_FORMULA_RE", "convert_formula", "extract_product_data",
   "get_last_page", "get_list_page_product_links", "get_all_product_links",
   "get_product_data"]

/-- The name src/script.py line 25 imports from the parse module. -/
def script_imported_name : String := "get_products"

/-- The validation message printed by src/script.py lines 53-54 (without
the terminal colour escapes). -/
def validation_error_message : String :=
  "ERROR: The number of products must be a positive integer."

/-- Body of `main` (src/script.py lines 49-66) under the import the source
intends (the harvest entry point of the parse module): a non-positive count
is rejected with the validation message and exit code 1 before the harvest
runs; otherwise the harvest is invoked.  The outer `Except` is the exit
status of the script, the inner one the outcome of the harvest. -/
def script_main (cat : Catalog) (url : String) (count : Option Int) :
    Except String (Except HarvestErr (List Product)) :=
  match count with
  | some c =>
    if c ≤ 0 then Except.error validation_error_message
    else Except.ok (get_product_data cat url (some c.toNat))
  | none => Except.ok (get_product_data cat url none)

/-! ## Lemmas about the formula scanner -/

theorem scanLetters_all_alpha (cs : List Char) :
    ∀ acc : List Char, (∀ c ∈ cs, c.isAlpha = true) →
      scanLetters acc cs = [(acc ++ cs, [])] := by
  induction cs with
  | nil => intro acc _; simp [scanLetters]
  | cons c rest ih =>
    intro acc h
    have hc : c.isAlpha = true := h c (by simp)
    have hrest : ∀ x ∈ rest, x.isAlpha = true := fun x hx => h x (by simp [hx])
    simp only [scanLetters, hc, if_true]
    rw [ih (acc ++ [c]) hrest]
    simp

theorem convert_formula_id_of_alpha (s : String)
    (h : ∀ c ∈ s.data, c.isAlpha = true) : convert_formula s = s := by
  obtain ⟨d⟩ := s
  unfold convert_formula
  cases d with
  | nil => simp [scanSkip]
  | cons c rest =>
    have hc : c.isAlpha = true := h c (by simp)
    have hrest : ∀ x ∈ rest, x.isAlpha = true := fun x hx => h x (by simp [hx])
    simp only [scanSkip, hc, if_true]
    rw [scanLetters_all_alpha rest [c] hrest]
    simp [emitToken]

theorem scan_inv (cs : List Char) :
    (∀ t ∈ scanSkip cs, (∀ c ∈ t.1, c.isAlpha = true) ∧ (∀ c ∈ t.2, c.isDigit = true)) ∧
    (∀ acc, (∀ c ∈ acc, c.isAlpha = true) →
      ∀ t ∈ scanLetters acc cs,
        (∀ c ∈ t.1, c.isAlpha = true) ∧ (∀ c ∈ t.2, c.isDigit = true)) ∧
    (∀ lacc dacc, (∀ c ∈ lacc, c.isAlpha = true) → (∀ c ∈ dacc, c.isDigit = true) →
      ∀ t ∈ scanDigits lacc dacc cs,
        (∀ c ∈ t.1, c.isAlpha = true) ∧ (∀ c ∈ t.2, c.isDigit = true)) := by
  induction cs with
  | nil =>
    refine ⟨by simp [scanSkip], ?_, ?_⟩
    · intro acc hacc t ht
      simp only [scanLetters, List.mem_singleton] at ht
      subst ht
      exact ⟨hacc, by simp⟩
    · intro lacc dacc hl hd t ht
      simp only [scanDigits, List.mem_singleton] at ht
      subst ht
      exact ⟨hl, hd⟩
  | cons c rest ih =>
    obtain ⟨ihS, ihL, ihD⟩ := ih
    refine ⟨?_, ?_, ?_⟩
    · intro t ht
      simp only [scanSkip] at ht
      by_cases hc : c.isAlpha = true
      · rw [if_pos hc] at ht
        exact ihL [c] (by simpa using hc) t ht
      · rw [if_neg hc] at ht
        exact ihS t ht
    · intro acc hacc t ht
      simp only [scanLetters] at ht
      by_cases hc : c.isAlpha = true
      · rw [if_pos hc] at ht
        refine ihL (acc ++ [c]) ?_ t ht
        intro x hx
        rcases List.mem_append.1 hx with hx | hx
        · exact hacc x hx
        · simp only [List.mem_singleton] at hx; subst hx; exact hc
      · rw [if_neg hc] at ht
        by_cases hcd : c.isDigit = true
        · rw [if_pos hcd] at ht
          exact ihD acc [c] hacc (by simpa using hcd) t ht
        · rw [if_neg hcd] at ht
          rcases List.mem_cons.1 ht with ht | ht
          · subst ht; exact ⟨hacc, by simp⟩
          · exact ihS t ht
    · intro lacc dacc hl hd t ht
      simp only [scanDigits] at ht
      by_cases hcd : c.isDigit = true
      · rw [if_pos hcd] at ht
        refine ihD lacc (dacc ++ [c]) hl ?_ t ht
        intro x hx
        rcases List.mem_append.1 hx with hx | hx
        · exact hd x hx
        · simp only [List.mem_singleton] at hx; subst hx; exact hcd
      · rw [if_neg hcd] at ht
        by_cases hc : c.isAlpha = true
        · rw [if_pos hc] at ht
          rcases List.mem_cons.1 ht with ht | ht
          · subst ht; exact ⟨hl, hd⟩
          · exact ihL [c] (by simpa using hc) t ht
        · rw [if_neg hc] at ht
          rcases List.mem_cons.1 ht with ht | ht
          · subst ht; exact ⟨hl, hd⟩
          · exact ihS t ht

theorem scan_nodigit (cs : List Char) (hcs : ∀ c ∈ cs, c.isDigit = false) :
    (∀ t ∈ scanSkip cs, t.2 = []) ∧
    (∀ acc, ∀ t ∈ scanLetters acc cs, t.2 = []) := by
  induction cs with
  | nil =>
    refine ⟨by simp [scanSkip], ?_⟩
    intro acc t ht
    simp only [scanLetters, List.mem_singleton] at ht
    subst ht; rfl
  | cons c rest ih =>
    have hc : c.isDigit = false := hcs c (by simp)
    have hrest : ∀ x ∈ rest, x.isDigit = false := fun x hx => hcs x (by simp [hx])
    obtain ⟨ihS, ihL⟩ := ih hrest
    refine ⟨?_, ?_⟩
    · intro t ht
      simp only [scanSkip] at ht
      by_cases ha : c.isAlpha = true
      · rw [if_pos ha] at ht; exact ihL [c] t ht
      · rw [if_neg ha] at ht; exact ihS t ht
    · intro acc t ht
      simp only [scanLetters] at ht
      by_cases ha : c.isAlpha = true
      · rw [if_pos ha] at ht; exact ihL (acc ++ [c]) t ht
      · rw [if_neg ha, hc, if_neg (by simp)] at ht
        rcases List.mem_cons.1 ht with ht | ht
        · subst ht; rfl
        · exact ihS t ht

theorem convert_formula_alpha_of_nodigit (s : String)
    (h : ∀ c ∈ s.data, c.isDigit = false) :
    ∀ c ∈ (convert_formula s).data, c.isAlpha = true := by
  intro c hc
  have hc2 : c ∈ ((scanSkip s.data).map emitToken).flatten := hc
  rw [List.mem_flatten] at hc2
  obtain ⟨l, hl, hcl⟩ := hc2
  rw [List.mem_map] at hl
  obtain ⟨t, ht, rfl⟩ := hl
  have h2 : t.2 = [] := (scan_nodigit s.data h).1 t ht
  have h1 : ∀ x ∈ t.1, x.isAlpha = true := ((scan_inv s.data).1 t ht).1
  rw [emitToken, h2] at hcl
  simp only [List.length_nil] at hcl
  exact h1 c (by simpa using hcl)

/-- C8: formula conversion tokenizes the input into (letter-run, optional
digit-run) pairs and emits `letters<sub>digits</sub>` for a token with
trailing digits and just the letters otherwise, concatenated in order; it
is the identity on letter-only strings, idempotent on digit-free strings,
and maps C6H12O6 to its subscripted form. -/
theorem C8_convert_formula :
    (∀ s : String, (∀ c ∈ s.data, c.isAlpha = true) → convert_formula s = s) ∧
    (∀ s : String, (∀ c ∈ s.data, c.isDigit = false) →
      convert_formula (convert_formula s) = convert_formula s) ∧
    convert_formula "NaCl" = "NaCl" ∧
    convert_formula "C6H12O6" = "C<sub>6</sub>H<sub>12</sub>O<sub>6</sub>" := by
  refine ⟨convert_formula_id_of_alpha, ?_, by decide, by decide⟩
  intro s h
  exact convert_formula_id_of_alpha _ (convert_formula_alpha_of_nodigit s h)

theorem C8_convert_formula_witness :
    convert_formula "NaCl" = "NaCl" ∧
    convert_formula (convert_formula "Na Cl") = convert_formula "Na Cl" :=
  ⟨C8_convert_formula.1 "NaCl" (by decide),
   C8_convert_formula.2.1 "Na Cl" (by decide)⟩

/-- C10: formula conversion silently discards every character outside a
letter-run-with-optional-digit-run match: parentheses, whitespace and digit
runs not preceded by letters are dropped, and the output consists only of
matched letters, matched digits and the literal sub-tag wrappers. -/
theorem C10_convert_formula_discards :
    convert_formula "(CH3)2" = "CH<sub>3</sub>" ∧
    convert_formula "2H2O" = "H<sub>2</sub>O" ∧
    ∀ (s : String) (c : Char), c ∈ (convert_formula s).data →
      c.isAlpha = true ∨ c.isDigit = true ∨ c ∈ ['<', '>', '/'] := by
  refine ⟨by decide, by decide, ?_⟩
  intro s c hc
  have hc2 : c ∈ ((scanSkip s.data).map emitToken).flatten := hc
  rw [List.mem_flatten] at hc2
  obtain ⟨l, hl, hcl⟩ := hc2
  rw [List.mem_map] at hl
  obtain ⟨t, ht, rfl⟩ := hl
  obtain ⟨h1, h2⟩ := (scan_inv s.data).1 t ht
  rw [emitToken] at hcl
  by_cases hlen : t.2.length != 0
  · rw [if_pos hlen] at hcl
    simp only [List.mem_append] at hcl
    rcases hcl with ((hcl | hcl) | hcl) | hcl
    · exact Or.inl (h1 c hcl)
    · fin_cases hcl <;> simp_all
    · exact Or.inr (Or.inl (h2 c hcl))
    · fin_cases hcl <;> simp_all
  · rw [if_neg hlen] at hcl
    exact Or.inl (h1 c hcl)

theorem C10_convert_formula_discards_witness :
    'C'.isAlpha = true ∨ 'C'.isDigit = true ∨ 'C' ∈ ['<', '>', '/'] :=
  C10_convert_formula_discards.2.2 "(CH3)2" 'C' (by decide)

/-! ## Generic lemmas about folds over table rows -/

theorem foldl_proj_pres {σ α γ} (step : σ → α → σ) (pr : σ → γ)
    (hstep : ∀ s a, pr (step s a) = pr s) :
    ∀ (l : List α) (s : σ), pr (l.foldl step s) = pr s := by
  intro l
  induction l with
  | nil => intro s; rfl
  | cons a l ih => intro s; rw [List.foldl_cons, ih, hstep]

theorem foldl_proj_opt {σ α β} (step : σ → α → σ) (pr : σ → Option β)
    (C : α → Prop) [DecidablePred C] (v : α → β)
    (hstep : ∀ s a, pr (step s a) = if C a then some (v a) else pr s) :
    ∀ (l : List α) (s : σ),
      (pr (l.foldl step s)).isSome = true ↔
        (pr s).isSome = true ∨ ∃ a ∈ l, C a := by
  intro l
  induction l with
  | nil => intro s; simp
  | cons a l ih =>
    intro s
    rw [List.foldl_cons, ih, hstep]
    by_cases hC : C a
    · simp [hC]
    · simp [hC]

/-! ## Claim C7: the pagination planner -/

/-- A small catalog whose navigation widget reports 12 pages, used for the
concrete planner examples. -/
def catC7 : Catalog where
  root := { prodtable := none, pagenav := some 12 }
  pages := fun _ => { prodtable := none, pagenav := none }
  details := fun _ =>
    { ptables := [], pricetables := [], synonymsNode := none,
      msdsHref := none, imgSrc := none }

/-- C7: with total page count M the planner returns M when no cap is
given, and min of the ceiling of cap over the page size (100 with the 100
URL marker, 50 otherwise) and M when a cap is given; in particular M=12
with page size 50 and cap 430 gives 9, and M=12 with no cap gives 12. -/
theorem C7_get_last_page (cat : Catalog) (url : String) (M c : Nat)
    (hM : cat.root.pagenav = some M) :
    get_last_page cat url none = Except.ok M ∧
    get_last_page cat url (some c) =
      Except.ok (min (c ⌈/⌉ products_per_page url) M) ∧
    get_last_page catC7 "http://c" (some 430) = Except.ok 9 ∧
    get_last_page catC7 "http://c" none = Except.ok 12 := by
  refine ⟨by simp [get_last_page, hM], ?_, rfl, rfl⟩
  simp only [get_last_page, hM, Nat.ceilDiv_eq_add_pred_div]

theorem C7_get_last_page_witness :
    get_last_page catC7 "http://c" none = Except.ok 12 ∧
    get_last_page catC7 "http://c" (some 430) =
      Except.ok (min (430 ⌈/⌉ products_per_page "http://c") 12) :=
  ⟨(C7_get_last_page catC7 "http://c" 12 430 rfl).1,
   (C7_get_last_page catC7 "http://c" 12 430 rfl).2.1⟩

/-! ## Claim C3: cap validation in the invocation script -/

/-- C3 (code bug): the import on src/script.py line 25 names
`get_products`, which src/parse.py never defines, so running the script
fails at import time with an ImportError before the validation code can
run; the validation body itself (lines 52-55), reachable only under the
intended import, does reject caps 0 and -5 with the validation error and
without invoking the harvest. -/
theorem C3_script_import_bug :
    parse_module_names.contains script_imported_name = false ∧
    script_main catC7 "http://c" (some 0) =
      Except.error validation_error_message ∧
    script_main catC7 "http://c" (some (-5)) =
      Except.error validation_error_message :=
  ⟨by decide, rfl, rfl⟩

/-! ## Claim C5: empty listing page versus missing product table -/

/-- A listing page whose markup has no product table at all. -/
def c5_missing_table_page : ListPage := { prodtable := none, pagenav := none }

/-- A listing page whose product table is present but has zero rows. -/
def c5_zero_rows_page : ListPage := { prodtable := some [], pagenav := none }

theorem C5_counterexample :
    get_list_page_product_links "http://c" c5_missing_table_page = Except.ok [] ∧
    get_list_page_product_links "http://c" c5_missing_table_page =
      get_list_page_product_links "http://c" c5_zero_rows_page :=
  ⟨rfl, rfl⟩

/-- C5 amended: a listing page with zero product rows yields an empty URL
sequence and no error, and a listing page missing the product table
entirely ALSO yields the empty sequence rather than raising an
ExtractionError; the two cases are not distinguishable at the
listing-extractor interface. -/
theorem C5_amended (url : String) (page : ListPage)
    (h : page.prodtable = none ∨ listing_rows page = []) :
    get_list_page_product_links url page = Except.ok [] := by
  have hrows : listing_rows page = [] := by
    rcases h with h | h
    · simp [listing_rows, h]
    · exact h
  simp only [get_list_page_product_links, hrows]
  rfl

theorem C5_amended_witness :
    get_list_page_product_links "http://c" c5_missing_table_page = Except.ok [] :=
  C5_amended "http://c" c5_missing_table_page (Or.inl rfl)

/-! ## Lemmas about the detail extractor -/

theorem step1_packaging (p : Product) (row : String × String) :
    (step1 p row).packaging = p.packaging := by
  rw [step1]; split_ifs <;> rfl

theorem step2_packaging (p : Product) (row : String × String) :
    (step2 p row).packaging = p.packaging := by
  rw [step2]; split_ifs <;> rfl

theorem stepPack_packaging (p : Product) (row : String × Rat) :
    (stepPack p row).packaging = assocSet p.packaging row.1 row.2 := rfl

theorem apply_synonyms_packaging (p : Product) (page : DetailPage) :
    (apply_synonyms p page).packaging = p.packaging := by
  unfold apply_synonyms
  rcases page with ⟨pt, pr, syn, ms, im⟩
  cases syn <;> rfl

theorem apply_msds_packaging (p : Product) (page : DetailPage) :
    (apply_msds p page).packaging = p.packaging := by
  unfold apply_msds
  rcases page with ⟨pt, pr, syn, ms, im⟩
  cases ms <;> rfl

theorem apply_img_packaging (p : Product) (page : DetailPage) :
    (apply_img p page).packaging = p.packaging := by
  unfold apply_img
  rcases page with ⟨pt, pr, syn, ms, im⟩
  cases im <;> rfl

/-- The pricing fold of lines 84-88, viewed at the level of the packaging
dict alone. -/
def packFold (l : List (String × Rat)) (rows : List (String × Rat)) :
    List (String × Rat) :=
  rows.foldl (fun acc row => assocSet acc row.1 row.2) l

theorem foldl_stepPack_packaging (rows : List (String × Rat)) :
    ∀ p : Product, (rows.foldl stepPack p).packaging = packFold p.packaging rows := by
  induction rows with
  | nil => intro p; rfl
  | cons r rest ih =>
    intro p
    rw [List.foldl_cons, ih]
    rfl

theorem assocSet_ne_nil (l : List (String × Rat)) (k : String) (v : Rat) :
    assocSet l k v ≠ [] := by
  cases l with
  | nil => simp [assocSet]
  | cons a rest =>
    obtain ⟨k0, v0⟩ := a
    rw [assocSet]
    split_ifs <;> simp

theorem packFold_ne_nil (rows : List (String × Rat)) :
    ∀ l, (l ≠ [] ∨ rows ≠ []) → packFold l rows ≠ [] := by
  induction rows with
  | nil =>
    intro l h
    rcases h with h | h
    · exact h
    · exact absurd rfl h
  | cons r rest ih =>
    intro l _
    exact ih (assocSet l r.1 r.2) (Or.inl (assocSet_ne_nil l r.1 r.2))

theorem assocSet_mem_self (l : List (String × Rat)) (k : String) (v : Rat) :
    ∃ w, (k, w) ∈ assocSet l k v := by
  induction l with
  | nil => exact ⟨v, by simp [assocSet]⟩
  | cons a rest ih =>
    obtain ⟨k0, v0⟩ := a
    rw [assocSet]
    by_cases hk : k0 = k
    · rw [if_pos hk]
      exact ⟨v, by simp⟩
    · rw [if_neg hk]
      obtain ⟨w, hw⟩ := ih
      exact ⟨w, by simp [hw]⟩

theorem assocSet_mem_keep (l : List (String × Rat)) (k2 : String) (v2 : Rat)
    (k : String) (h : ∃ w, (k, w) ∈ l) : ∃ w, (k, w) ∈ assocSet l k2 v2 := by
  induction l with
  | nil => simp at h
  | cons a rest ih =>
    obtain ⟨k0, v0⟩ := a
    rw [assocSet]
    by_cases hk : k0 = k2
    · rw [if_pos hk]
      obtain ⟨w, hw⟩ := h
      rcases List.mem_cons.1 hw with hw | hw
      · have hkk : k = k0 := (Prod.mk.inj hw).1
        exact ⟨v2, by simp [hkk, hk]⟩
      · exact ⟨w, by simp [hw]⟩
    · rw [if_neg hk]
      obtain ⟨w, hw⟩ := h
      rcases List.mem_cons.1 hw with hw | hw
      · have hkk : k = k0 := (Prod.mk.inj hw).1
        exact ⟨v0, by simp [hkk]⟩
      · obtain ⟨w2, hw2⟩ := ih ⟨w, hw⟩
        exact ⟨w2, by simp [hw2]⟩

theorem packFold_keep (rows : List (String × Rat)) :
    ∀ (l : List (String × Rat)) (k : String), (∃ w, (k, w) ∈ l) →
      ∃ w, (k, w) ∈ packFold l rows := by
  induction rows with
  | nil => intro l k h; exact h
  | cons r rest ih =>
    intro l k h
    exact ih (assocSet l r.1 r.2) k (assocSet_mem_keep l r.1 r.2 k h)

theorem packFold_mem (rows : List (String × Rat)) :
    ∀ (l : List (String × Rat)) (row : String × Rat), row ∈ rows →
      ∃ w, (row.1, w) ∈ packFold l rows := by
  induction rows with
  | nil => intro l row h; simp at h
  | cons r rest ih =>
    intro l row h
    rcases List.mem_cons.1 h with h | h
    · subst h
      exact packFold_keep rest (assocSet l row.1 row.2) row.1
        (assocSet_mem_self l row.1 row.2)
    · exact ih (assocSet l r.1 r.2) row h

theorem default_packaging_ne_nil (p : Product) :
    (default_packaging p).packaging ≠ [] := by
  unfold default_packaging
  split_ifs with h
  · simp
  · simpa using h

theorem default_packaging_of_nil (p : Product) (h : p.packaging = []) :
    (default_packaging p).packaging = [("ne", 0)] := by
  unfold default_packaging
  rw [if_pos (by simp [h])]

theorem default_packaging_of_ne_nil (p : Product) (h : p.packaging ≠ []) :
    (default_packaging p).packaging = p.packaging := by
  unfold default_packaging
  rw [if_neg (by simpa using h)]

/-- Inversion of a successful detail extraction: the three required
structural elements were found and the record is the composite fold over
them. -/
theorem extract_ok_inv (u : String) (page : DetailPage) (r : Product)
    (h : extract_product_data u page = Except.ok r) :
    ∃ table1 prices_rows table2,
      page.ptables[0]? = some table1 ∧
      page.pricetables[0]? = some prices_rows ∧
      page.ptables[1]? = some table2 ∧
      r = table2.foldl step2
        (apply_img
          (apply_msds
            (apply_synonyms
              (default_packaging
                (prices_rows.foldl stepPack (table1.foldl step1 (initial_product u))))
              page)
            page)
          page) := by
  unfold extract_product_data at h
  split at h
  · exact absurd h (by simp)
  · rename_i table1 heq1
    split at h
    · exact absurd h (by simp)
    · rename_i prices_rows heq2
      split at h
      · exact absurd h (by simp)
      · rename_i table2 heq3
        refine ⟨table1, prices_rows, table2, heq1, heq2, heq3, ?_⟩
        injection h with h
        exact h.symm

/-- The priced-offer rows of a detail page: the rows of its first pricing
table, none when the table is missing. -/
def priced_rows (page : DetailPage) : List (String × Rat) :=
  (page.pricetables[0]?).getD []

/-- C9: for every successfully extracted record the packaging mapping is
non-empty; zero priced rows give exactly the sentinel entry, and each
priced row contributes an entry under its size label. -/
theorem C9_packaging (u : String) (page : DetailPage) (r : Product)
    (h : extract_product_data u page = Except.ok r) :
    r.packaging ≠ [] ∧
    (priced_rows page = [] → r.packaging = [("ne", 0)]) ∧
    (∀ row ∈ priced_rows page, ∃ v, (row.1, v) ∈ r.packaging) := by
  obtain ⟨t1, prs, t2, h1, h2, h3, rfl⟩ := extract_ok_inv u page r h
  have hpr : priced_rows page = prs := by rw [priced_rows, h2]; rfl
  have hpack :
      (t2.foldl step2
        (apply_img (apply_msds (apply_synonyms
          (default_packaging (prs.foldl stepPack (t1.foldl step1 (initial_product u))))
          page) page) page)).packaging =
      (default_packaging
        (prs.foldl stepPack (t1.foldl step1 (initial_product u)))).packaging := by
    rw [foldl_proj_pres step2 (fun p => p.packaging) step2_packaging,
      apply_img_packaging, apply_msds_packaging, apply_synonyms_packaging]
  have hinit : (t1.foldl step1 (initial_product u)).packaging = [] :=
    foldl_proj_pres step1 (fun p => p.packaging) step1_packaging t1 (initial_product u)
  have hfold :
      (prs.foldl stepPack (t1.foldl step1 (initial_product u))).packaging =
      packFold [] prs := by
    rw [foldl_stepPack_packaging, hinit]
  refine ⟨?_, ?_, ?_⟩
  · rw [hpack]
    exact default_packaging_ne_nil _
  · intro hnil
    rw [hpr] at hnil
    subst hnil
    rw [hpack]
    exact default_packaging_of_nil _ (by rw [hfold]; rfl)
  · intro row hrow
    rw [hpr] at hrow
    have hne : (prs.foldl stepPack (t1.foldl step1 (initial_product u))).packaging ≠ [] := by
      rw [hfold]
      exact packFold_ne_nil prs [] (Or.inr (List.ne_nil_of_mem hrow))
    rw [hpack, default_packaging_of_ne_nil _ hne, hfold]
    exact packFold_mem prs [] row hrow

/-- A detail page with both data tables present and one priced offer. -/
def c9page : DetailPage where
  ptables := [[], []]
  pricetables := [[("5g", 10)]]
  synonymsNode := none
  msdsHref := none
  imgSrc := none

/-- The record extracted from `c9page`. -/
def c9record : Product :=
  { initial_product "http://d/x" with packaging := [("5g", 10)] }

theorem C9_packaging_witness :
    (extract_product_data "http://d/x" c9page = Except.ok c9record) ∧
    c9record.packaging ≠ [] ∧
    (priced_rows c9page = [] → c9record.packaging = [("ne", 0)]) ∧
    (∀ row ∈ priced_rows c9page, ∃ v, (row.1, v) ∈ c9record.packaging) :=
  ⟨rfl, C9_packaging "http://d/x" c9page c9record rfl⟩

/-! ## Claim C6: the field policy of the detail extractor -/

/-- The `weight` entry of the nested properties dict, when both exist. -/
def getWeight (p : Product) : Option String :=
  p.properties.bind (fun b => b.weight)

/-- The `purity` entry of the nested properties dict, when both exist. -/
def getPurity (p : Product) : Option String :=
  p.properties.bind (fun b => b.purity)

/-- The `melting_point` entry of the nested properties dict, when both
exist. -/
def getMelting (p : Product) : Option String :=
  p.properties.bind (fun b => b.melting_point)

/-- The rows of the `Product Detail` table (first `ptable`). -/
def table1 (page : DetailPage) : List (String × String) :=
  (page.ptables[0]?).getD []

/-- The rows of the `Product Specification` table (second `ptable`). -/
def table2 (page : DetailPage) : List (String × String) :=
  (page.ptables[1]?).getD []

theorem step1_pid (p : Product) (row : String × String) :
    (step1 p row).pid =
      if row.1 = "Glentham Code" then some (some row.2) else p.pid := by
  rw [step1]; split_ifs <;> simp_all

theorem step1_name (p : Product) (row : String × String) :
    (step1 p row).name =
      if row.1 = "Product Name" then some (some row.2) else p.name := by
  rw [step1]; split_ifs <;> simp_all

theorem step1_CAS (p : Product) (row : String × String) :
    (step1 p row).CAS = if row.1 = "CAS" then some row.2 else p.CAS := by
  rw [step1]; split_ifs <;> simp_all

theorem step1_structure (p : Product) (row : String × String) :
    (step1 p row).structure_ =
      if row.1 = "Molecular Formula" ∧ row.2 ≠ "-" then
        some (convert_formula row.2)
      else p.structure_ := by
  rw [step1]; split_ifs <;> simp_all

theorem step1_getWeight (p : Product) (row : String × String) :
    getWeight (step1 p row) =
      if row.1 = "Molecular Weight" ∧ row.2 ≠ "-" then some row.2
      else getWeight p := by
  rw [step1]
  split_ifs <;> simp_all [getWeight] <;> cases p.properties <;> simp

theorem step1_getPurity (p : Product) (row : String × String) :
    getPurity (step1 p row) = getPurity p := by
  rw [step1]
  split_ifs <;> simp_all [getPurity] <;> cases p.properties <;> simp

theorem step1_getMelting (p : Product) (row : String × String) :
    getMelting (step1 p row) = getMelting p := by
  rw [step1]
  split_ifs <;> simp_all [getMelting] <;> cases p.properties <;> simp

theorem step1_url (p : Product) (row : String × String) :
    (step1 p row).url = p.url := by
  rw [step1]; split_ifs <;> rfl

theorem step1_synonyms (p : Product) (row : String × String) :
    (step1 p row).synonyms = p.synonyms := by
  rw [step1]; split_ifs <;> rfl

theorem step1_pdf_msds (p : Product) (row : String × String) :
    (step1 p row).pdf_msds = p.pdf_msds := by
  rw [step1]; split_ifs <;> rfl

theorem step1_img (p : Product) (row : String × String) :
    (step1 p row).img = p.img := by
  rw [step1]; split_ifs <;> rfl

theorem step2_getPurity (p : Product) (row : String × String) :
    getPurity (step2 p row) =
      if row.1 = "Purity" then some row.2 else getPurity p := by
  rw [step2]
  split_ifs <;> simp_all [getPurity] <;> cases p.properties <;> simp

theorem step2_getMelting (p : Product) (row : String × String) :
    getMelting (step2 p row) =
      if row.1 = "Melting Point" then some row.2 else getMelting p := by
  rw [step2]
  split_ifs <;> simp_all [getMelting] <;> cases p.properties <;> simp

theorem step2_getWeight (p : Product) (row : String × String) :
    getWeight (step2 p row) = getWeight p := by
  rw [step2]
  split_ifs <;> simp_all [getWeight] <;> cases p.properties <;> simp

theorem step2_pid (p : Product) (row : String × String) :
    (step2 p row).pid = p.pid := by
  rw [step2]; split_ifs <;> rfl

theorem step2_name (p : Product) (row : String × String) :
    (step2 p row).name = p.name := by
  rw [step2]; split_ifs <;> rfl

theorem step2_url (p : Product) (row : String × String) :
    (step2 p row).url = p.url := by
  rw [step2]; split_ifs <;> rfl

theorem step2_CAS (p : Product) (row : String × String) :
    (step2 p row).CAS = p.CAS := by
  rw [step2]; split_ifs <;> rfl

theorem step2_structure (p : Product) (row : String × String) :
    (step2 p row).structure_ = p.structure_ := by
  rw [step2]; split_ifs <;> rfl

theorem step2_synonyms (p : Product) (row : String × String) :
    (step2 p row).synonyms = p.synonyms := by
  rw [step2]; split_ifs <;> rfl

theorem step2_pdf_msds (p : Product) (row : String × String) :
    (step2 p row).pdf_msds = p.pdf_msds := by
  rw [step2]; split_ifs <;> rfl

theorem step2_img (p : Product) (row : String × String) :
    (step2 p row).img = p.img := by
  rw [step2]; split_ifs <;> rfl

theorem stepPack_fields (p : Product) (row : String × Rat) :
    (stepPack p row).pid = p.pid ∧ (stepPack p row).name = p.name ∧
    (stepPack p row).url = p.url ∧ (stepPack p row).CAS = p.CAS ∧
    (stepPack p row).structure_ = p.structure_ ∧
    (stepPack p row).properties = p.properties ∧
    (stepPack p row).synonyms = p.synonyms ∧
    (stepPack p row).pdf_msds = p.pdf_msds ∧ (stepPack p row).img = p.img :=
  ⟨rfl, rfl, rfl, rfl, rfl, rfl, rfl, rfl, rfl⟩

theorem default_packaging_fields (p : Product) :
    (default_packaging p).pid = p.pid ∧ (default_packaging p).name = p.name ∧
    (default_packaging p).url = p.url ∧ (default_packaging p).CAS = p.CAS ∧
    (default_packaging p).structure_ = p.structure_ ∧
    (default_packaging p).properties = p.properties ∧
    (default_packaging p).synonyms = p.synonyms ∧
    (default_packaging p).pdf_msds = p.pdf_msds ∧
    (default_packaging p).img = p.img := by
  unfold default_packaging
  split_ifs <;> exact ⟨rfl, rfl, rfl, rfl, rfl, rfl, rfl, rfl, rfl⟩

theorem apply_synonyms_fields (p : Product) (page : DetailPage) :
    (apply_synonyms p page).pid = p.pid ∧ (apply_synonyms p page).name = p.name ∧
    (apply_synonyms p page).url = p.url ∧ (apply_synonyms p page).CAS = p.CAS ∧
    (apply_synonyms p page).structure_ = p.structure_ ∧
    (apply_synonyms p page).properties = p.properties ∧
    (apply_synonyms p page).pdf_msds = p.pdf_msds ∧
    (apply_synonyms p page).img = p.img := by
  unfold apply_synonyms
  rcases page with ⟨pt, pr, syn, ms, im⟩
  cases syn <;> exact ⟨rfl, rfl, rfl, rfl, rfl, rfl, rfl, rfl⟩

theorem apply_synonyms_synonyms (p : Product) (page : DetailPage) :
    ((apply_synonyms p page).synonyms.isSome = true ↔
      page.synonymsNode.isSome = true ∨ p.synonyms.isSome = true) := by
  unfold apply_synonyms
  rcases page with ⟨pt, pr, syn, ms, im⟩
  cases syn <;> simp

theorem apply_msds_fields (p : Product) (page : DetailPage) :
    (apply_msds p page).pid = p.pid ∧ (apply_msds p page).name = p.name ∧
    (apply_msds p page).url = p.url ∧ (apply_msds p page).CAS = p.CAS ∧
    (apply_msds p page).structure_ = p.structure_ ∧
    (apply_msds p page).properties = p.properties ∧
    (apply_msds p page).synonyms = p.synonyms ∧
    (apply_msds p page).img = p.img := by
  unfold apply_msds
  rcases page with ⟨pt, pr, syn, ms, im⟩
  cases ms <;> exact ⟨rfl, rfl, rfl, rfl, rfl, rfl, rfl, rfl⟩

theorem apply_msds_pdf (p : Product) (page : DetailPage) :
    ((apply_msds p page).pdf_msds.isSome = true ↔
      page.msdsHref.isSome = true ∨ p.pdf_msds.isSome = true) := by
  unfold apply_msds
  rcases page with ⟨pt, pr, syn, ms, im⟩
  cases ms <;> simp

theorem apply_img_fields (p : Product) (page : DetailPage) :
    (apply_img p page).pid = p.pid ∧ (apply_img p page).name = p.name ∧
    (apply_img p page).url = p.url ∧ (apply_img p page).CAS = p.CAS ∧
    (apply_img p page).structure_ = p.structure_ ∧
    (apply_img p page).properties = p.properties ∧
    (apply_img p page).synonyms = p.synonyms ∧
    (apply_img p page).pdf_msds = p.pdf_msds := by
  unfold apply_img
  rcases page with ⟨pt, pr, syn, ms, im⟩
  cases im <;> exact ⟨rfl, rfl, rfl, rfl, rfl, rfl, rfl, rfl⟩

theorem apply_img_img (p : Product) (page : DetailPage) :
    ((apply_img p page).img.isSome = true ↔
      page.imgSrc.isSome = true ∨ p.img.isSome = true) := by
  unfold apply_img
  rcases page with ⟨pt, pr, syn, ms, im⟩
  cases im <;> simp

/-- A detail page whose detail table carries a CAS row holding the
placeholder value, and no identifier row. -/
def c6page : DetailPage where
  ptables := [[("CAS", "-")], []]
  pricetables := [[]]
  synonymsNode := none
  msdsHref := none
  imgSrc := none

/-- The record extracted from `c6page`. -/
def c6record : Product where
  pid := some none
  name := some none
  url := "http://d/c6"
  CAS := some "-"
  structure_ := none
  properties := none
  packaging := [("ne", 0)]
  synonyms := none
  pdf_msds := none
  img := none

theorem C6_counterexample :
    extract_product_data "http://d/c6" c6page = Except.ok c6record ∧
    c6record.CAS = some "-" ∧
    c6record.pid = some none ∧
    c6record.name = some none :=
  ⟨rfl, rfl, rfl, rfl⟩

/-- C6 amended: for every successfully extracted record, `url` is always
set; the keys `pid` and `name` are always present (pre-initialised to null,
so an absent source row leaves a null value rather than an absent key);
`CAS`, `purity` and `melting_point` are present iff their labeled row is
present, copied verbatim including the placeholder `-`; `structure` and
`weight` are present iff their labeled row is present with a value other
than `-`; `synonyms`, the MSDS link and the image link are present iff
their source node is present. -/
theorem C6_amended (u : String) (page : DetailPage) (r : Product)
    (h : extract_product_data u page = Except.ok r) :
    r.url = u ∧
    r.pid.isSome = true ∧
    r.name.isSome = true ∧
    (r.CAS.isSome = true ↔ ∃ row ∈ table1 page, row.1 = "CAS") ∧
    (r.structure_.isSome = true ↔
      ∃ row ∈ table1 page, row.1 = "Molecular Formula" ∧ row.2 ≠ "-") ∧
    ((getWeight r).isSome = true ↔
      ∃ row ∈ table1 page, row.1 = "Molecular Weight" ∧ row.2 ≠ "-") ∧
    ((getPurity r).isSome = true ↔ ∃ row ∈ table2 page, row.1 = "Purity") ∧
    ((getMelting r).isSome = true ↔
      ∃ row ∈ table2 page, row.1 = "Melting Point") ∧
    (r.synonyms.isSome = true ↔ page.synonymsNode.isSome = true) ∧
    (r.pdf_msds.isSome = true ↔ page.msdsHref.isSome = true) ∧
    (r.img.isSome = true ↔ page.imgSrc.isSome = true) := by
  obtain ⟨t1, prs, t2, h1, h2, h3, rfl⟩ := extract_ok_inv u page r h
  have ht1 : table1 page = t1 := by rw [table1, h1]; rfl
  have ht2 : table2 page = t2 := by rw [table2, h3]; rfl
  set p1 := t1.foldl step1 (initial_product u) with hp1
  set p2 := prs.foldl stepPack p1 with hp2
  set p3 := default_packaging p2 with hp3
  set p4 := apply_synonyms p3 page with hp4
  set p5 := apply_msds p4 page with hp5
  set p6 := apply_img p5 page with hp6
  have hp2f := foldl_proj_pres stepPack (fun q => q.properties)
    (fun s a => (stepPack_fields s a).2.2.2.2.2.1) prs p1
  refine ⟨?_, ?_, ?_, ?_, ?_, ?_, ?_, ?_, ?_, ?_, ?_⟩
  · -- url
    rw [foldl_proj_pres step2 (fun q => q.url) step2_url,
      (apply_img_fields p5 page).2.2.1, (apply_msds_fields p4 page).2.2.1,
      (apply_synonyms_fields p3 page).2.2.1, (default_packaging_fields p2).2.2.1,
      foldl_proj_pres stepPack (fun q => q.url)
        (fun s a => (stepPack_fields s a).2.2.1) prs p1,
      foldl_proj_pres step1 (fun q => q.url) step1_url t1 (initial_product u)]
    rfl
  · -- pid
    rw [foldl_proj_pres step2 (fun q => q.pid) step2_pid,
      (apply_img_fields p5 page).1, (apply_msds_fields p4 page).1,
      (apply_synonyms_fields p3 page).1, (default_packaging_fields p2).1,
      foldl_proj_pres stepPack (fun q => q.pid)
        (fun s a => (stepPack_fields s a).1) prs p1]
    rw [foldl_proj_opt step1 (fun q => q.pid)
      (fun row => row.1 = "Glentham Code") (fun row => some row.2) step1_pid t1
      (initial_product u)]
    simp [initial_product]
  · -- name
    rw [foldl_proj_pres step2 (fun q => q.name) step2_name,
      (apply_img_fields p5 page).2.1, (apply_msds_fields p4 page).2.1,
      (apply_synonyms_fields p3 page).2.1, (default_packaging_fields p2).2.1,
      foldl_proj_pres stepPack (fun q => q.name)
        (fun s a => (stepPack_fields s a).2.1) prs p1]
    rw [foldl_proj_opt step1 (fun q => q.name)
      (fun row => row.1 = "Product Name") (fun row => some row.2) step1_name t1
      (initial_product u)]
    simp [initial_product]
  · -- CAS
    rw [foldl_proj_pres step2 (fun q => q.CAS) step2_CAS,
      (apply_img_fields p5 page).2.2.2.1, (apply_msds_fields p4 page).2.2.2.1,
      (apply_synonyms_fields p3 page).2.2.2.1,
      (default_packaging_fields p2).2.2.2.1,
      foldl_proj_pres stepPack (fun q => q.CAS)
        (fun s a => (stepPack_fields s a).2.2.2.1) prs p1]
    rw [foldl_proj_opt step1 (fun q => q.CAS)
      (fun row => row.1 = "CAS") (fun row => row.2) step1_CAS t1
      (initial_product u)]
    simp [initial_product, ht1]
  · -- structure_
    rw [foldl_proj_pres step2 (fun q => q.structure_) step2_structure,
      (apply_img_fields p5 page).2.2.2.2.1, (apply_msds_fields p4 page).2.2.2.2.1,
      (apply_synonyms_fields p3 page).2.2.2.2.1,
      (default_packaging_fields p2).2.2.2.2.1,
      foldl_proj_pres stepPack (fun q => q.structure_)
        (fun s a => (stepPack_fields s a).2.2.2.2.1) prs p1]
    rw [foldl_proj_opt step1 (fun q => q.structure_)
      (fun row => row.1 = "Molecular Formula" ∧ row.2 ≠ "-")
      (fun row => convert_formula row.2) step1_structure t1 (initial_product u)]
    simp [initial_product, ht1]
  · -- weight
    have hw : getWeight (t2.foldl step2 p6) = getWeight p6 :=
      foldl_proj_pres step2 getWeight step2_getWeight t2 p6
    rw [hw, hp6, hp5, hp4, getWeight, (apply_img_fields p5 page).2.2.2.2.2.1,
      (apply_msds_fields p4 page).2.2.2.2.2.1,
      (apply_synonyms_fields p3 page).2.2.2.2.2.1, hp3,
      (default_packaging_fields p2).2.2.2.2.2.1, hp2, hp2f]
    have : p1.properties.bind (fun b => b.weight) = getWeight p1 := rfl
    rw [this, foldl_proj_opt step1 getWeight
      (fun row => row.1 = "Molecular Weight" ∧ row.2 ≠ "-")
      (fun row => row.2) step1_getWeight t1 (initial_product u)]
    simp [getWeight, initial_product, ht1]
  · -- purity
    rw [foldl_proj_opt step2 getPurity (fun row => row.1 = "Purity")
      (fun row => row.2) step2_getPurity t2 p6]
    have hp : getPurity p6 = getPurity p1 := by
      rw [hp6, hp5, hp4, getPurity, (apply_img_fields p5 page).2.2.2.2.2.1,
        (apply_msds_fields p4 page).2.2.2.2.2.1,
        (apply_synonyms_fields p3 page).2.2.2.2.2.1, hp3,
        (default_packaging_fields p2).2.2.2.2.2.1, hp2, hp2f]
      rfl
    rw [hp, foldl_proj_pres step1 getPurity step1_getPurity t1 (initial_product u)]
    simp [getPurity, initial_product, ht2]
  · -- melting point
    rw [foldl_proj_opt step2 getMelting (fun row => row.1 = "Melting Point")
      (fun row => row.2) step2_getMelting t2 p6]
    have hm : getMelting p6 = getMelting p1 := by
      rw [hp6, hp5, hp4, getMelting, (apply_img_fields p5 page).2.2.2.2.2.1,
        (apply_msds_fields p4 page).2.2.2.2.2.1,
        (apply_synonyms_fields p3 page).2.2.2.2.2.1, hp3,
        (default_packaging_fields p2).2.2.2.2.2.1, hp2, hp2f]
      rfl
    rw [hm, foldl_proj_pres step1 getMelting step1_getMelting t1 (initial_product u)]
    simp [getMelting, initial_product, ht2]
  · -- synonyms
    rw [foldl_proj_pres step2 (fun q => q.synonyms) step2_synonyms,
      hp6, hp5, (apply_img_fields p5 page).2.2.2.2.2.2.1,
      (apply_msds_fields p4 page).2.2.2.2.2.2.1, hp4]
    rw [apply_synonyms_synonyms p3 page, hp3,
      (default_packaging_fields p2).2.2.2.2.2.2.1, hp2,
      foldl_proj_pres stepPack (fun q => q.synonyms)
        (fun s a => (stepPack_fields s a).2.2.2.2.2.2.1) prs p1, hp1,
      foldl_proj_pres step1 (fun q => q.synonyms) step1_synonyms t1
        (initial_product u)]
    simp [initial_product]
  · -- MSDS link
    rw [foldl_proj_pres step2 (fun q => q.pdf_msds) step2_pdf_msds,
      hp6, (apply_img_fields p5 page).2.2.2.2.2.2.2, hp5]
    rw [apply_msds_pdf p4 page, hp4,
      (apply_synonyms_fields p3 page).2.2.2.2.2.2.1, hp3,
      (default_packaging_fields p2).2.2.2.2.2.2.2.1, hp2,
      foldl_proj_pres stepPack (fun q => q.pdf_msds)
        (fun s a => (stepPack_fields s a).2.2.2.2.2.2.2.1) prs p1, hp1,
      foldl_proj_pres step1 (fun q => q.pdf_msds) step1_pdf_msds t1
        (initial_product u)]
    simp [initial_product]
  · -- image link
    rw [foldl_proj_pres step2 (fun q => q.img) step2_img, hp6]
    rw [apply_img_img p5 page, hp5,
      (apply_msds_fields p4 page).2.2.2.2.2.2.2, hp4,
      (apply_synonyms_fields p3 page).2.2.2.2.2.2.2, hp3,
      (default_packaging_fields p2).2.2.2.2.2.2.2.2, hp2,
      foldl_proj_pres stepPack (fun q => q.img)
        (fun s a => (stepPack_fields s a).2.2.2.2.2.2.2.2) prs p1, hp1,
      foldl_proj_pres step1 (fun q => q.img) step1_img t1 (initial_product u)]
    simp [initial_product]

theorem C6_amended_witness :
    c6record.url = "http://d/c6" ∧
    c6record.pid.isSome = true ∧
    c6record.name.isSome = true ∧
    (c6record.CAS.isSome = true ↔ ∃ row ∈ table1 c6page, row.1 = "CAS") ∧
    (c6record.structure_.isSome = true ↔
      ∃ row ∈ table1 c6page, row.1 = "Molecular Formula" ∧ row.2 ≠ "-") ∧
    ((getWeight c6record).isSome = true ↔
      ∃ row ∈ table1 c6page, row.1 = "Molecular Weight" ∧ row.2 ≠ "-") ∧
    ((getPurity c6record).isSome = true ↔ ∃ row ∈ table2 c6page, row.1 = "Purity") ∧
    ((getMelting c6record).isSome = true ↔
      ∃ row ∈ table2 c6page, row.1 = "Melting Point") ∧
    (c6record.synonyms.isSome = true ↔ c6page.synonymsNode.isSome = true) ∧
    (c6record.pdf_msds.isSome = true ↔ c6page.msdsHref.isSome = true) ∧
    (c6record.img.isSome = true ↔ c6page.imgSrc.isSome = true) :=
  C6_amended "http://d/c6" c6page c6record rfl

/-! ## Claim C4: a failing detail page and the batch -/

theorem extract_errors_are_extraction (u : String) (page : DetailPage)
    (e : HarvestErr) (h : extract_product_data u page = Except.error e) :
    e = HarvestErr.extractionError := by
  unfold extract_product_data at h
  split at h
  · exact (Except.error.inj h).symm
  · split at h
    · exact (Except.error.inj h).symm
    · split at h
      · exact (Except.error.inj h).symm
      · exact absurd h (by simp)

theorem mapM_error_of_mem {α β} {f : α → Except HarvestErr β} {l : List α}
    {a : α} {e : HarvestErr} (ha : a ∈ l) (he : f a = Except.error e)
    (huniq : ∀ x e2, f x = Except.error e2 → e2 = e) :
    l.mapM f = Except.error e := by
  rw [← List.mapM'_eq_mapM]
  induction l with
  | nil => simp at ha
  | cons b t ih =>
    rw [List.mapM'_cons]
    cases hfb : f b with
    | error e2 =>
      have he2 : e2 = e := huniq b e2 hfb
      subst he2
      rfl
    | ok v =>
      rcases List.mem_cons.1 ha with rfl | ha2
      · rw [hfb] at he; exact absurd he (by simp)
      · simp only [ih ha2]
        rfl

/-- A detail page whose pricing table is missing entirely. -/
def c4bad : DetailPage where
  ptables := [[], []]
  pricetables := []
  synonymsNode := none
  msdsHref := none
  imgSrc := none

/-- A detail page with all required structural elements present. -/
def c4good : DetailPage where
  ptables := [[], []]
  pricetables := [[]]
  synonymsNode := none
  msdsHref := none
  imgSrc := none

/-- A catalog with one listing page holding two product links, whose second
detail page is missing its pricing table. -/
def c4cat : Catalog where
  root := { prodtable := none, pagenav := some 1 }
  pages := fun _ =>
    { prodtable := some [{ hasBorderTd := true, href := some "http://d/good" },
                         { hasBorderTd := true, href := some "http://d/bad" }],
      pagenav := none }
  details := fun u => if u = "http://d/bad" then c4bad else c4good

theorem C4_counterexample :
    extract_product_data "http://d/bad" c4bad =
      Except.error HarvestErr.extractionError ∧
    get_all_product_links c4cat "http://c4" none =
      Except.ok ["http://d/good", "http://d/bad"] ∧
    get_product_data c4cat "http://c4" none =
      Except.error HarvestErr.extractionError :=
  ⟨rfl, rfl, rfl⟩

/-- C4 amended: a detail page missing a required structural element (one of
the two main data tables or the pricing table) makes its extraction fail
with an ExtractionError, but the failure is NOT caught anywhere: the
orchestrator's batch map re-raises it, so one failing record aborts the
whole batch instead of surfacing as a per-record failure. -/
theorem C4_amended (u : String) (page : DetailPage)
    (hbad : page.ptables = [] ∨ page.pricetables = [] ∨ page.ptables.length < 2) :
    extract_product_data u page = Except.error HarvestErr.extractionError ∧
    ∀ (cat : Catalog) (url : String) (count : Option Nat) (links : List String),
      cat.details u = page →
      get_all_product_links cat url count = Except.ok links →
      u ∈ links →
      get_product_data cat url count = Except.error HarvestErr.extractionError := by
  have hfail : extract_product_data u page = Except.error HarvestErr.extractionError := by
    unfold extract_product_data
    rcases hbad with hb | hb | hb
    · rw [show page.ptables[0]? = none by simp [hb]]
    · cases h0 : page.ptables[0]? with
      | none => rfl
      | some t1 =>
        rw [show page.pricetables[0]? = none by simp [hb]]
    · cases h0 : page.ptables[0]? with
      | none => rfl
      | some t1 =>
        cases hpr : page.pricetables[0]? with
        | none => rfl
        | some prs =>
          rw [show page.ptables[1]? = none from List.getElem?_eq_none (by omega)]
  refine ⟨hfail, ?_⟩
  intro cat url count links hdet hlinks hmem
  unfold get_product_data
  rw [hlinks]
  show links.mapM (fun u2 => extract_product_data u2 (cat.details u2)) =
    Except.error HarvestErr.extractionError
  exact mapM_error_of_mem hmem (by rw [hdet]; exact hfail)
    (fun x e2 hx => extract_errors_are_extraction x (cat.details x) e2 hx)

theorem C4_amended_witness :
    extract_product_data "http://d/bad" c4bad =
      Except.error HarvestErr.extractionError ∧
    get_product_data c4cat "http://c4" none =
      Except.error HarvestErr.extractionError :=
  ⟨(C4_amended "http://d/bad" c4bad (Or.inr (Or.inl rfl))).1,
   (C4_amended "http://d/bad" c4bad (Or.inr (Or.inl rfl))).2 c4cat "http://c4"
     none ["http://d/good", "http://d/bad"] rfl rfl (by decide)⟩

/-! ## Claim C1: the record count of a full harvest -/

theorem ok_bind {ε α β} (a : α) (f : α → Except ε β) :
    (Except.ok a : Except ε α) >>= f = f a := rfl

theorem mapM_ok_map {α β} (f : α → Except HarvestErr β) (g : α → β)
    (l : List α) (h : ∀ a ∈ l, f a = Except.ok (g a)) :
    l.mapM f = Except.ok (l.map g) := by
  rw [← List.mapM'_eq_mapM]
  induction l with
  | nil => rfl
  | cons b t ih =>
    rw [List.mapM'_cons]
    have ht := ih (fun a ha => h a (List.mem_cons_of_mem b ha))
    simp only [h b (List.mem_cons_self b t), ht]
    rfl

/-- The record a detail extraction produces when it succeeds. -/
def extractedOr (cat : Catalog) (u : String) : Product :=
  match extract_product_data u (cat.details u) with
  | Except.ok r => r
  | Except.error _ => initial_product u

theorem get_all_of_listing_ok (cat : Catalog) (url : String)
    (count : Option Nat) (L : Nat)
    (hL : get_last_page cat url count = Except.ok L)
    (hok : ∀ n, 1 ≤ n → n ≤ L → ∃ ls,
      get_list_page_product_links (page_url url n) (cat.pages n) = Except.ok ls) :
    get_all_product_links cat url count =
      Except.ok (truncate count ((List.range' 1 L).map (linksOn cat url)).flatten) := by
  unfold get_all_product_links
  rw [hL, ok_bind]
  have hmap : (List.range' 1 L).mapM
      (fun number => get_list_page_product_links (page_url url number) (cat.pages number)) =
      Except.ok ((List.range' 1 L).map (linksOn cat url)) := by
    apply mapM_ok_map
    intro n hn
    obtain ⟨i, hi, rfl⟩ := List.mem_range'.1 hn
    obtain ⟨ls, hls⟩ := hok (1 + 1 * i) (by omega) (by omega)
    rw [hls, linksOn, hls]
  rw [hmap, ok_bind]
  rfl

theorem get_product_of_ok (cat : Catalog) (url : String) (count : Option Nat)
    (links : List String)
    (hlinks : get_all_product_links cat url count = Except.ok links)
    (hdet : ∀ u ∈ links, ∃ r, extract_product_data u (cat.details u) = Except.ok r) :
    get_product_data cat url count = Except.ok (links.map (extractedOr cat)) := by
  unfold get_product_data
  rw [hlinks, ok_bind]
  apply mapM_ok_map
  intro u hu
  obtain ⟨r, hr⟩ := hdet u hu
  simp only [extractedOr, hr]

theorem sum_map_const {α} (l : List α) (g : α → Nat) (k : Nat)
    (h : ∀ a ∈ l, g a = k) : (l.map g).sum = l.length * k := by
  induction l with
  | nil => simp
  | cons a t ih =>
    have ha := h a (List.mem_cons_self a t)
    have ht := ih (fun x hx => h x (List.mem_cons_of_mem a hx))
    simp only [List.map_cons, List.sum_cons, ht, ha, List.length_cons]
    ring

/-- A catalog falsifying C1 as stated: 2 listing pages of one link each
(each page far below the 50-link page size), so a cap of 2 plans only
`ceil(2/50) = 1` page and the harvest returns 1 record although
`min(cap, total_catalog_size) = 2`. -/
def cexCatalog : Catalog where
  root := { prodtable := none, pagenav := some 2 }
  pages := fun _ =>
    { prodtable := some [{ hasBorderTd := true, href := some "http://d/p" }],
      pagenav := none }
  details := fun _ => c4good

theorem C1_counterexample :
    harvestOk cexCatalog "http://c" (some 2) = true ∧
    total_catalog_size cexCatalog "http://c" = 2 ∧
    harvestCount cexCatalog "http://c" (some 2) = 1 ∧
    harvestCount cexCatalog "http://c" (some 2) ≠
      min 2 (total_catalog_size cexCatalog "http://c") := by
  refine ⟨rfl, rfl, rfl, by decide⟩

/-- C1 amended: when every listing page before the last carries exactly
`products_per_page url` links (the full-page assumption the planner relies
on), and listing extraction and detail extraction succeed, the uncapped
harvest returns exactly `total_catalog_size` records and a capped harvest
returns exactly `min cap total_catalog_size` records.  Without the
full-page assumption a capped harvest can return fewer records, because
the planner visits only `ceil(cap / page_size)` pages (see the
counterexample). -/
theorem C1_amended (cat : Catalog) (url : String) (M c : Nat)
    (hM : cat.root.pagenav = some M)
    (hlist : ∀ n, 1 ≤ n → n ≤ M → ∃ ls,
      get_list_page_product_links (page_url url n) (cat.pages n) = Except.ok ls)
    (hfull : ∀ n, 1 ≤ n → n < M →
      (linksOn cat url n).length = products_per_page url)
    (hdet : ∀ u, ∃ r, extract_product_data u (cat.details u) = Except.ok r)
    (hc : 0 < c) :
    harvestOk cat url none = true ∧
    harvestCount cat url none = total_catalog_size cat url ∧
    harvestOk cat url (some c) = true ∧
    harvestCount cat url (some c) = min c (total_catalog_size cat url) := by
  have hps_pos : 0 < products_per_page url := by
    rw [products_per_page]; split_ifs <;> omega
  have hlp_none : get_last_page cat url none = Except.ok M := by
    simp [get_last_page, hM]
  have hlp_some : get_last_page cat url (some c) =
      Except.ok (min ((c + products_per_page url - 1) / products_per_page url) M) := by
    simp [get_last_page, hM]
  have hall_none : get_all_product_links cat url none =
      Except.ok ((List.range' 1 M).map (linksOn cat url)).flatten := by
    have h := get_all_of_listing_ok cat url none M hlp_none
      (fun n h1 h2 => hlist n h1 h2)
    simpa [truncate] using h
  have htotal : total_catalog_size cat url =
      (((List.range' 1 M).map (linksOn cat url)).flatten).length := by
    rw [total_catalog_size, discovered_links, hall_none]
  have hprod_none := get_product_of_ok cat url none _ hall_none
    (fun u _ => hdet u)
  refine ⟨?_, ?_, ?_, ?_⟩
  · simp only [harvestOk, hprod_none]
  · simp only [harvestCount, hprod_none, List.length_map]
    rw [htotal]
  · have hLM : min ((c + products_per_page url - 1) / products_per_page url) M ≤ M :=
      min_le_right _ _
    have hall_some := get_all_of_listing_ok cat url (some c) _ hlp_some
      (fun n h1 h2 => hlist n h1 (le_trans h2 hLM))
    have hprod_some := get_product_of_ok cat url (some c) _ hall_some
      (fun u _ => hdet u)
    simp only [harvestOk, hprod_some]
  · have hLM : min ((c + products_per_page url - 1) / products_per_page url) M ≤ M :=
      min_le_right _ _
    have hall_some := get_all_of_listing_ok cat url (some c) _ hlp_some
      (fun n h1 h2 => hlist n h1 (le_trans h2 hLM))
    have hprod_some := get_product_of_ok cat url (some c) _ hall_some
      (fun u _ => hdet u)
    simp only [harvestCount, hprod_some, List.length_map, truncate,
      List.length_take]
    rw [htotal]
    by_cases hcase : (c + products_per_page url - 1) / products_per_page url < M
    · -- the planner stops before the last page: every visited page is full
      have hLeq : min ((c + products_per_page url - 1) / products_per_page url) M =
          (c + products_per_page url - 1) / products_per_page url :=
        min_eq_left (by omega)
      rw [hLeq]
      have hlen : (((List.range' 1
            ((c + products_per_page url - 1) / products_per_page url)).map
            (linksOn cat url)).flatten).length =
          ((c + products_per_page url - 1) / products_per_page url) *
            products_per_page url := by
        rw [List.length_flatten, List.map_map]
        have hconst : ∀ n ∈ List.range' 1
            ((c + products_per_page url - 1) / products_per_page url),
            (List.length ∘ linksOn cat url) n = products_per_page url := by
          intro n hn
          obtain ⟨i, hi, rfl⟩ := List.mem_range'.1 hn
          exact hfull (1 + 1 * i) (by omega) (by omega)
        rw [sum_map_const _ _ _ hconst]
        simp
      have hcle : c ≤ ((c + products_per_page url - 1) / products_per_page url) *
          products_per_page url := by
        have h1 : c ≤ products_per_page url • (c ⌈/⌉ products_per_page url) :=
          le_smul_ceilDiv hps_pos
        rw [Nat.ceilDiv_eq_add_pred_div, smul_eq_mul, mul_comm] at h1
        exact h1
      have hsplit : List.range' 1
            ((c + products_per_page url - 1) / products_per_page url) ++
          List.range' (1 + (c + products_per_page url - 1) / products_per_page url)
            (M - (c + products_per_page url - 1) / products_per_page url) =
          List.range' 1 M := by
        rw [List.range'_append_1]
        congr 1
        omega
      have htot_ge : ((c + products_per_page url - 1) / products_per_page url) *
            products_per_page url ≤
          (((List.range' 1 M).map (linksOn cat url)).flatten).length := by
        rw [← hsplit, List.map_append, List.flatten_append, List.length_append,
          hlen]
        exact Nat.le_add_right _ _
      rw [hlen, min_eq_left hcle, min_eq_left (le_trans hcle htot_ge)]
    · have hLeq : min ((c + products_per_page url - 1) / products_per_page url) M = M :=
        min_eq_right (by omega)
      rw [hLeq]

/-- A catalog with a single listing page of three links, all of whose
detail pages extract successfully. -/
def c1cat : Catalog where
  root := { prodtable := none, pagenav := some 1 }
  pages := fun _ =>
    { prodtable := some [{ hasBorderTd := true, href := some "http://d/1" },
                         { hasBorderTd := true, href := some "http://d/2" },
                         { hasBorderTd := true, href := some "http://d/3" }],
      pagenav := none }
  details := fun _ => c4good

theorem C1_amended_witness :
    harvestOk c1cat "http://c1" none = true ∧
    harvestCount c1cat "http://c1" none = total_catalog_size c1cat "http://c1" ∧
    harvestOk c1cat "http://c1" (some 2) = true ∧
    harvestCount c1cat "http://c1" (some 2) =
      min 2 (total_catalog_size c1cat "http://c1") :=
  C1_amended c1cat "http://c1" 1 2 rfl
    (fun _ _ _ => ⟨["http://d/1", "http://d/2", "http://d/3"], rfl⟩)
    (fun _ _ h2 => absurd h2 (by omega))
    (fun u => ⟨{ initial_product u with packaging := [("ne", 0)] }, rfl⟩)
    (by decide)

/-! ## Claim C2: the worker pool refines the sequential map -/

theorem lookup_poolRun_none {α β} (f : α → β) (xs : List α) (i : Nat)
    (hi : xs[i]? = none) :
    ∀ order : List Nat, List.lookup i (poolRun f xs order) = none := by
  intro order
  induction order with
  | nil => rfl
  | cons j rest ih =>
    rw [poolRun, List.filterMap_cons]
    cases hj : xs[j]? with
    | none =>
      show List.lookup i (poolRun f xs rest) = none
      exact ih
    | some a =>
      have hij : (i == j) = false := by
        rw [beq_eq_false_iff_ne]
        intro h
        subst h
        rw [hi] at hj
        cases hj
      rw [Option.map_some']
      show List.lookup i ((j, f a) :: poolRun f xs rest) = none
      rw [List.lookup_cons, hij]
      exact ih

theorem lookup_poolRun_some {α β} (f : α → β) (xs : List α) (i : Nat) (a : α)
    (ha : xs[i]? = some a) :
    ∀ order : List Nat, i ∈ order →
      List.lookup i (poolRun f xs order) = some (f a) := by
  intro order
  induction order with
  | nil => intro h; simp at h
  | cons j rest ih =>
    intro hmem
    rw [poolRun, List.filterMap_cons]
    by_cases hij : i = j
    · subst hij
      rw [ha, Option.map_some']
      exact List.lookup_cons_self
    · have hrest : i ∈ rest := by
        rcases List.mem_cons.1 hmem with h | h
        · exact absurd h hij
        · exact h
      have hb : (i == j) = false := beq_eq_false_iff_ne.mpr hij
      cases hj : xs[j]? with
      | none =>
        show List.lookup i (poolRun f xs rest) = some (f a)
        exact ih hrest
      | some b =>
        rw [Option.map_some']
        show List.lookup i ((j, f b) :: poolRun f xs rest) = some (f a)
        rw [List.lookup_cons, hb]
        exact ih hrest

theorem sequenceO_range_map {α β} (f : α → β) :
    ∀ (xs : List α) (g : Nat → Option β),
      (∀ i (h : i < xs.length), g i = some (f xs[i])) →
      sequenceO ((List.range xs.length).map g) = some (xs.map f) := by
  intro xs
  induction xs with
  | nil => intro g _; rfl
  | cons x t ih =>
    intro g hg
    have h0 : g 0 = some (f x) := hg 0 (by simp)
    rw [List.length_cons, List.range_succ_eq_map, List.map_cons, List.map_map,
      h0]
    have ht : sequenceO ((List.range t.length).map (g ∘ Nat.succ)) =
        some (t.map f) := by
      apply ih
      intro i hi
      have := hg (i + 1) (by simpa using Nat.succ_lt_succ hi)
      simpa using this
    rw [sequenceO, ht]
    rfl

theorem poolMap_perm {α β} (f : α → β) (xs : List α) (order : List Nat)
    (hperm : order.Perm (List.range xs.length)) :
    poolMap f xs order = some (xs.map f) := by
  rw [poolMap, reassemble]
  apply sequenceO_range_map
  intro i hi
  have hmem : i ∈ order := (hperm.mem_iff).2 (List.mem_range.2 hi)
  exact lookup_poolRun_some f xs i xs[i] (List.getElem?_eq_getElem hi) order hmem

theorem sequenceE_map_eq_mapM {α β ε} (f : α → Except ε β) (l : List α) :
    sequenceE (l.map f) = l.mapM f := by
  rw [← List.mapM'_eq_mapM]
  induction l with
  | nil => rfl
  | cons b t ih => simp only [List.map_cons, sequenceE, ih, List.mapM'_cons]

/-- C2: under any completion order of the workers that covers every input
(a permutation of the input indices), the pooled implementation of both
fan-out phases produces exactly the ordered result of the plain sequential
map: page order for listing URLs, URL order for records. -/
theorem C2_pool_refinement (cat : Catalog) (url : String) (count : Option Nat)
    (order1 order2 : List Nat)
    (h1 : order1.Perm (List.range (planned_pages cat url count)))
    (h2 : order2.Perm (List.range (discovered_links cat url count).length)) :
    get_product_data_pooled cat url count order1 order2 =
      get_product_data cat url count := by
  have hall : get_all_product_links_pooled cat url count order1 =
      get_all_product_links cat url count := by
    unfold get_all_product_links_pooled get_all_product_links
    cases hlp : get_last_page cat url count with
    | error e => rfl
    | ok L =>
      rw [ok_bind, ok_bind]
      have hplan : planned_pages cat url count = L := by
        rw [planned_pages, hlp]
      rw [hplan] at h1
      rw [poolMap_perm _ _ order1 (by simpa using h1)]
      show (do
        let results ← sequenceE ((List.range' 1 L).map
          (fun number =>
            get_list_page_product_links (page_url url number) (cat.pages number)))
        pure (truncate count results.flatten) : Except HarvestErr (List String)) = _
      rw [sequenceE_map_eq_mapM]
  unfold get_product_data_pooled get_product_data
  rw [hall]
  cases hl : get_all_product_links cat url count with
  | error e => rfl
  | ok links =>
    rw [ok_bind, ok_bind]
    have hd : discovered_links cat url count = links := by
      rw [discovered_links, hl]
    rw [hd] at h2
    rw [poolMap_perm _ _ order2 h2]
    show sequenceE (links.map (fun u => extract_product_data u (cat.details u))) = _
    exact sequenceE_map_eq_mapM _ links

/-- A catalog with two listing pages of two links each, so that both pool
phases have several tasks to complete out of order. -/
def c2cat : Catalog where
  root := { prodtable := none, pagenav := some 2 }
  pages := fun n =>
    { prodtable :=
        some [{ hasBorderTd := true, href := some ("http://d/" ++ toString n ++ "a") },
              { hasBorderTd := true, href := some ("http://d/" ++ toString n ++ "b") }],
      pagenav := none }
  details := fun _ => c4good

theorem C2_pool_refinement_witness :
    get_product_data_pooled c2cat "http://c2" none [1, 0] [2, 0, 3, 1] =
      get_product_data c2cat "http://c2" none :=
  C2_pool_refinement c2cat "http://c2" none [1, 0] [2, 0, 3, 1]
    (by decide) (by decide)

end ParseProducts
